import Mathlib

/-!
Verification development for the client-side media converter.

The development shallowly embeds the image pipeline of
`src/utils/mediaUtils.ts` (`convertImage`, `convertImageToPDF`), the
file-type classifier and filename logic of `src/App.tsx`
(`getMediaType`, `processFile`, `handleProcess`, `simulateProgress`),
over the following idealisations:

* JavaScript numbers are modelled as rationals (`ℚ`);
* JavaScript strings are modelled as `List Char`;
* the canvas 2D surface is modelled pixel-wise: a fresh canvas is
  transparent black, `fillRect` with `#FFFFFF` makes a pixel opaque
  white, and `drawImage` uses the default source-over composite rule;
* `canvas.toBlob` / image decoding are modelled as dimension- and
  pixel-preserving (codec lossiness is out of scope); the quality
  argument of `toBlob` is recorded for lossy formats and dropped for
  PNG, per the HTML canvas specification.
-/

/-- The target formats the running code passes to `canvas.toBlob`
(App.tsx maps the dropdown values png / jpg / webp to these MIME types). -/
inductive ImageFormat where
  | png
  | jpeg
  | webp
deriving DecidableEq

/-- A canvas pixel: straight (non-premultiplied) colour channels and an
alpha channel, all rational. -/
structure Pixel where
  r : ℚ
  g : ℚ
  b : ℚ
  a : ℚ
deriving DecidableEq

/-- The opaque white produced by `ctx.fillStyle = '#FFFFFF'; ctx.fillRect(...)`. -/
def whitePixel : Pixel := ⟨1, 1, 1, 1⟩

/-- The transparent black that a freshly created canvas holds. -/
def transparentPixel : Pixel := ⟨0, 0, 0, 0⟩

/-- Source-over compositing of `src` on top of `dst`, the default
`globalCompositeOperation` used by `ctx.drawImage`: straight-alpha form of
the Porter–Duff over operator. -/
def compositeOver (src dst : Pixel) : Pixel :=
  let aOut := src.a + dst.a * (1 - src.a)
  if aOut = 0 then transparentPixel
  else
    ⟨(src.r * src.a + dst.r * dst.a * (1 - src.a)) / aOut,
     (src.g * src.a + dst.g * dst.a * (1 - src.a)) / aOut,
     (src.b * src.a + dst.b * dst.a * (1 - src.a)) / aOut,
     aOut⟩

/-- The canvas content `convertImage` draws onto before `drawImage`:
opaque white for JPEG (the `fillRect` branch), the fresh transparent
canvas otherwise. -/
def canvasBackground (format : ImageFormat) : Pixel :=
  if format = ImageFormat.jpeg then whitePixel else transparentPixel

/-- Per-pixel effect of `convertImage`'s canvas stage: the source pixel
drawn (source-over) onto the background selected by the format. -/
def convertImagePixel (format : ImageFormat) (src : Pixel) : Pixel :=
  compositeOver src (canvasBackground format)

/-- A decoded raster: natural width and height of the `Image`, and its
pixel grid. -/
structure SourceImage where
  width : Nat
  height : Nat
  pix : Nat → Nat → Pixel

/-- Output of `canvas.toBlob`: the encoded container format, the canvas
dimensions and pixels it serialises, and the quality parameter it used
(`none` for PNG, where the canvas specification ignores it). -/
structure EncodedImage where
  format : ImageFormat
  width : Nat
  height : Nat
  pix : Nat → Nat → Pixel
  quality : Option ℚ

/-- Default of `convertImage`'s `quality` parameter (`quality: number = 0.9`). -/
def defaultQuality : ℚ := 9 / 10

/-- `convertImage` from mediaUtils.ts: size the canvas to the image's
natural dimensions, fill white when the target is JPEG, draw the image,
and serialise the canvas with `toBlob(format, quality)`. -/
def convertImage (img : SourceImage) (format : ImageFormat)
    (quality : ℚ := defaultQuality) : EncodedImage :=
  { format := format
    width := img.width
    height := img.height
    pix := fun x y => convertImagePixel format (img.pix x y)
    quality := if format = ImageFormat.png then none else some quality }

/-- Decoding an encoded image recovers the raster the canvas held
(dimension- and pixel-preserving codec idealisation). -/
def decodeBlob (e : EncodedImage) : SourceImage :=
  ⟨e.width, e.height, e.pix⟩

/-- A4 page width used by `new jsPDF()` (millimetre preset), as read by
`doc.internal.pageSize.getWidth()`. -/
def pageWidth : ℚ := 210

/-- A4 page height used by `new jsPDF()`, as read by
`doc.internal.pageSize.getHeight()`. -/
def pageHeight : ℚ := 297

/-- `widthRatio` from `convertImageToPDF`: `pageWidth / img.width`. -/
def widthRatio (w : Nat) : ℚ := pageWidth / w

/-- `heightRatio` from `convertImageToPDF`: `pageHeight / img.height`. -/
def heightRatio (h : Nat) : ℚ := pageHeight / h

/-- `ratio` from `convertImageToPDF`:
`widthRatio < heightRatio ? widthRatio : heightRatio`. -/
def paginateRatio (w h : Nat) : ℚ :=
  if widthRatio w < heightRatio h then widthRatio w else heightRatio h

/-- The placement rectangle `convertImageToPDF` hands to `doc.addImage`. -/
structure Placement where
  x : ℚ
  y : ℚ
  finalWidth : ℚ
  finalHeight : ℚ

/-- Placement computed by `convertImageToPDF`: `finalWidth = img.width * ratio`,
`finalHeight = img.height * ratio`, centred offsets. -/
def paginatePlacement (w h : Nat) : Placement :=
  let ratio := paginateRatio w h
  let finalWidth := (w : ℚ) * ratio
  let finalHeight := (h : ℚ) * ratio
  ⟨(pageWidth - finalWidth) / 2, (pageHeight - finalHeight) / 2,
   finalWidth, finalHeight⟩

lemma paginateRatio_eq_min (w h : Nat) :
    paginateRatio w h = min (widthRatio w) (heightRatio h) := by
  unfold paginateRatio
  rcases lt_or_le (widthRatio w) (heightRatio h) with hlt | hle
  · rw [if_pos hlt, min_eq_left hlt.le]
  · rw [if_neg (not_lt.mpr hle), min_eq_right hle]

lemma paginateRatio_pos (w h : Nat) (hw : 0 < w) (hh : 0 < h) :
    0 < paginateRatio w h := by
  rw [paginateRatio_eq_min]
  refine lt_min ?_ ?_
  · exact div_pos (by norm_num [pageWidth]) (by exact_mod_cast hw)
  · exact div_pos (by norm_num [pageHeight]) (by exact_mod_cast hh)

lemma paginate_finalWidth_le (w h : Nat) (hw : 0 < w) :
    (paginatePlacement w h).finalWidth ≤ pageWidth := by
  have hwq : (0 : ℚ) < (w : ℚ) := by exact_mod_cast hw
  have hle : paginateRatio w h ≤ widthRatio w := by
    rw [paginateRatio_eq_min]; exact min_le_left _ _
  have : (w : ℚ) * paginateRatio w h ≤ (w : ℚ) * widthRatio w :=
    mul_le_mul_of_nonneg_left hle hwq.le
  calc (paginatePlacement w h).finalWidth
      = (w : ℚ) * paginateRatio w h := rfl
    _ ≤ (w : ℚ) * widthRatio w := this
    _ = pageWidth := by
        unfold widthRatio
        field_simp

lemma paginate_finalHeight_le (w h : Nat) (hh : 0 < h) :
    (paginatePlacement w h).finalHeight ≤ pageHeight := by
  have hhq : (0 : ℚ) < (h : ℚ) := by exact_mod_cast hh
  have hle : paginateRatio w h ≤ heightRatio h := by
    rw [paginateRatio_eq_min]; exact min_le_right _ _
  have : (h : ℚ) * paginateRatio w h ≤ (h : ℚ) * heightRatio h :=
    mul_le_mul_of_nonneg_left hle hhq.le
  calc (paginatePlacement w h).finalHeight
      = (h : ℚ) * paginateRatio w h := rfl
    _ ≤ (h : ℚ) * heightRatio h := this
    _ = pageHeight := by
        unfold heightRatio
        field_simp

/-- Claim C1: for every decoded source image with positive width and
height, `convertImageToPDF` computes the uniform scale factor
`ratio = min(pageWidth/imgWidth, pageHeight/imgHeight)`, sets
`finalWidth = imgWidth * ratio` and `finalHeight = imgHeight * ratio`,
and places the image at the centred offsets
`x = (pageWidth - finalWidth)/2`, `y = (pageHeight - finalHeight)/2`
(hence `x + finalWidth/2 = pageWidth/2`). -/
theorem paginate_contain_fit_centered (w h : Nat) (hw : 0 < w) (hh : 0 < h) :
    paginateRatio w h = min (pageWidth / w) (pageHeight / h) ∧
    (paginatePlacement w h).finalWidth = (w : ℚ) * paginateRatio w h ∧
    (paginatePlacement w h).finalHeight = (h : ℚ) * paginateRatio w h ∧
    (paginatePlacement w h).x =
      (pageWidth - (paginatePlacement w h).finalWidth) / 2 ∧
    (paginatePlacement w h).y =
      (pageHeight - (paginatePlacement w h).finalHeight) / 2 ∧
    (paginatePlacement w h).x + (paginatePlacement w h).finalWidth / 2 =
      pageWidth / 2 ∧
    (paginatePlacement w h).y + (paginatePlacement w h).finalHeight / 2 =
      pageHeight / 2 := by
  refine ⟨paginateRatio_eq_min w h, rfl, rfl, rfl, rfl, ?_, ?_⟩
  · show (pageWidth - (w : ℚ) * paginateRatio w h) / 2 +
      ((w : ℚ) * paginateRatio w h) / 2 = pageWidth / 2
    ring
  · show (pageHeight - (h : ℚ) * paginateRatio w h) / 2 +
      ((h : ℚ) * paginateRatio w h) / 2 = pageHeight / 2
    ring

/-- Witness for C1 at the spec's example of a 100×200 source image. -/
theorem paginate_contain_fit_centered_witness :
    paginateRatio 100 200 = min (pageWidth / 100) (pageHeight / 200) ∧
    (paginatePlacement 100 200).finalWidth =
      (100 : ℚ) * paginateRatio 100 200 ∧
    (paginatePlacement 100 200).finalHeight =
      (200 : ℚ) * paginateRatio 100 200 ∧
    (paginatePlacement 100 200).x =
      (pageWidth - (paginatePlacement 100 200).finalWidth) / 2 ∧
    (paginatePlacement 100 200).y =
      (pageHeight - (paginatePlacement 100 200).finalHeight) / 2 ∧
    (paginatePlacement 100 200).x +
      (paginatePlacement 100 200).finalWidth / 2 = pageWidth / 2 ∧
    (paginatePlacement 100 200).y +
      (paginatePlacement 100 200).finalHeight / 2 = pageHeight / 2 :=
  paginate_contain_fit_centered 100 200 (by decide) (by decide)

/-- Claim C2: for every source image with positive integer width and
height, the placement rectangle fits the page
(`finalWidth ≤ pageWidth`, `finalHeight ≤ pageHeight`), preserves the
aspect ratio (`finalWidth / finalHeight = w / h`, exactly in ℚ), is
centred, and is non-degenerate (both final dimensions are strictly
positive finite rationals, so neither NaN nor infinite arises). -/
theorem paginate_placement_invariants (w h : Nat) (hw : 0 < w) (hh : 0 < h) :
    (paginatePlacement w h).finalWidth ≤ pageWidth ∧
    (paginatePlacement w h).finalHeight ≤ pageHeight ∧
    (paginatePlacement w h).finalWidth / (paginatePlacement w h).finalHeight =
      (w : ℚ) / (h : ℚ) ∧
    (paginatePlacement w h).x =
      (pageWidth - (paginatePlacement w h).finalWidth) / 2 ∧
    (paginatePlacement w h).y =
      (pageHeight - (paginatePlacement w h).finalHeight) / 2 ∧
    0 < (paginatePlacement w h).finalWidth ∧
    0 < (paginatePlacement w h).finalHeight := by
  have hwq : (0 : ℚ) < (w : ℚ) := by exact_mod_cast hw
  have hhq : (0 : ℚ) < (h : ℚ) := by exact_mod_cast hh
  have hr : 0 < paginateRatio w h := paginateRatio_pos w h hw hh
  refine ⟨paginate_finalWidth_le w h hw, paginate_finalHeight_le w h hh,
    ?_, rfl, rfl, mul_pos hwq hr, mul_pos hhq hr⟩
  show (w : ℚ) * paginateRatio w h / ((h : ℚ) * paginateRatio w h) =
    (w : ℚ) / (h : ℚ)
  rw [mul_div_mul_right _ _ hr.ne']

/-- Witness for C2 at the spec's 1×1 boundary input. -/
theorem paginate_placement_invariants_witness :
    (paginatePlacement 1 1).finalWidth ≤ pageWidth ∧
    (paginatePlacement 1 1).finalHeight ≤ pageHeight ∧
    (paginatePlacement 1 1).finalWidth / (paginatePlacement 1 1).finalHeight =
      (1 : ℚ) / (1 : ℚ) ∧
    (paginatePlacement 1 1).x =
      (pageWidth - (paginatePlacement 1 1).finalWidth) / 2 ∧
    (paginatePlacement 1 1).y =
      (pageHeight - (paginatePlacement 1 1).finalHeight) / 2 ∧
    0 < (paginatePlacement 1 1).finalWidth ∧
    0 < (paginatePlacement 1 1).finalHeight := by
  have := paginate_placement_invariants 1 1 (by decide) (by decide)
  simpa using this

lemma convertImagePixel_jpeg_transparent (p : Pixel) (ha : p.a = 0) :
    convertImagePixel ImageFormat.jpeg p = whitePixel := by
  unfold convertImagePixel canvasBackground compositeOver
  simp only [if_pos rfl, whitePixel, ha]
  norm_num

lemma convertImagePixel_alpha_preserved (f : ImageFormat)
    (hf : f ≠ ImageFormat.jpeg) (p : Pixel) :
    (convertImagePixel f p).a = p.a := by
  unfold convertImagePixel canvasBackground compositeOver
  rw [if_neg hf]
  simp only [transparentPixel]
  rcases eq_or_ne p.a 0 with h0 | h0
  · simp [h0]
  · rw [if_neg (by simpa using h0)]
    simp

/-- Claim C3: re-encoding to JPEG first composites the decoded image over
an opaque white background, so every fully transparent source pixel
decodes to opaque white in the output; for PNG and WEBP no background is
painted and the alpha channel of every pixel is preserved unchanged. -/
theorem convertImage_jpeg_flattens_png_webp_preserve_alpha :
    (∀ (img : SourceImage) (q : ℚ) (x y : Nat),
      (img.pix x y).a = 0 →
      (decodeBlob (convertImage img ImageFormat.jpeg q)).pix x y = whitePixel) ∧
    (∀ (f : ImageFormat), (f = ImageFormat.png ∨ f = ImageFormat.webp) →
      ∀ (img : SourceImage) (q : ℚ) (x y : Nat),
      ((decodeBlob (convertImage img f q)).pix x y).a = (img.pix x y).a) := by
  constructor
  · intro img q x y ha
    exact convertImagePixel_jpeg_transparent _ ha
  · intro f hf img q x y
    have hne : f ≠ ImageFormat.jpeg := by
      rcases hf with h | h <;> subst h <;> intro hc <;> cases hc
    exact convertImagePixel_alpha_preserved f hne _

/-- Witness for C3: a 1×1 fully transparent source pixel becomes opaque
white under the JPEG path and keeps alpha 0 under the PNG path. -/
theorem convertImage_jpeg_flattens_witness :
    (decodeBlob (convertImage ⟨1, 1, fun _ _ => transparentPixel⟩
        ImageFormat.jpeg defaultQuality)).pix 0 0 = whitePixel ∧
    ((decodeBlob (convertImage ⟨1, 1, fun _ _ => transparentPixel⟩
        ImageFormat.png defaultQuality)).pix 0 0).a = transparentPixel.a :=
  ⟨convertImage_jpeg_flattens_png_webp_preserve_alpha.1
      ⟨1, 1, fun _ _ => transparentPixel⟩ defaultQuality 0 0 rfl,
   convertImage_jpeg_flattens_png_webp_preserve_alpha.2
      ImageFormat.png (Or.inl rfl)
      ⟨1, 1, fun _ _ => transparentPixel⟩ defaultQuality 0 0⟩

/-- Claim C4: for every raster input and every target format, the output
of `convertImage` has exactly the input's natural pixel dimensions (the
canvas is sized to `img.width × img.height` and serialised as-is), and
re-encoding the decoded output again at the same format yields the same
width and height (idempotence on dimensions). -/
theorem convertImage_preserves_dimensions (img : SourceImage)
    (f : ImageFormat) (q : ℚ) :
    (convertImage img f q).width = img.width ∧
    (convertImage img f q).height = img.height ∧
    (convertImage (decodeBlob (convertImage img f q)) f q).width =
      (convertImage img f q).width ∧
    (convertImage (decodeBlob (convertImage img f q)) f q).height =
      (convertImage img f q).height :=
  ⟨rfl, rfl, rfl, rfl⟩

/-- Claim C5: `convertImage` accepts every format of the closed
enumeration {PNG, JPEG, WEBP} and encodes into exactly the requested
format; the quality factor defaults to 0.9 (inside the 0.9–0.92 band)
when not supplied; and for PNG the quality argument is ignored — the
output is identical for any two quality values. -/
theorem convertImage_formats_and_quality (img : SourceImage) (q q' : ℚ) :
    (∀ f : ImageFormat, (convertImage img f q).format = f) ∧
    (9 / 10 : ℚ) ≤ defaultQuality ∧ defaultQuality ≤ (92 / 100 : ℚ) ∧
    (convertImage img ImageFormat.jpeg).quality = some defaultQuality ∧
    (convertImage img ImageFormat.webp).quality = some defaultQuality ∧
    convertImage img ImageFormat.png q = convertImage img ImageFormat.png q' := by
  refine ⟨fun f => rfl, le_refl _, by norm_num [defaultQuality], rfl, rfl, rfl⟩

/-- The classification tags of `MediaType` in src/types.ts. -/
inductive MediaType where
  | video
  | audio
  | image
  | document
  | unknown
deriving DecidableEq

/-- The `ConversionStatus` enumeration in src/types.ts. -/
inductive ConversionStatus where
  | idle
  | processing
  | success
  | error
deriving DecidableEq

/-- `getMediaType` from App.tsx, over the declared content-type string
(JS strings modelled as `List Char`): prefix tests for image/, video/,
audio/, an equality test for application/pdf, `unknown` otherwise. -/
def getMediaType (ctype : List Char) : MediaType :=
  if "image/".toList.isPrefixOf ctype then MediaType.image
  else if "video/".toList.isPrefixOf ctype then MediaType.video
  else if "audio/".toList.isPrefixOf ctype then MediaType.audio
  else if ctype = "application/pdf".toList then MediaType.document
  else MediaType.unknown

/-- The fields of the App's React state that `processFile` touches:
`activeFile` (name, content type and classification of the accepted
file), `errorMsg`, `status`, `selectedFormat` and `progress`. -/
structure AppState where
  activeFile : Option (List Char × List Char × MediaType)
  errorMsg : List Char
  status : ConversionStatus
  selectedFormat : List Char
  progress : ℚ

/-- The rejection message `processFile` sets for an unknown type. -/
def unsupportedMsg : List Char :=
  "Unsupported file type. Please upload Video, Audio, Image, or PDF.".toList

/-- `processFile` from App.tsx: classify the file; on `unknown`, set the
error message and return without touching the rest of the state; else
install the file as active and reset status, error, format and progress. -/
def processFile (s : AppState) (name ctype : List Char) : AppState :=
  let t := getMediaType ctype
  if t = MediaType.unknown then { s with errorMsg := unsupportedMsg }
  else
    { activeFile := some (name, ctype, t)
      errorMsg := [] 
      status := ConversionStatus.idle
      selectedFormat := []
      progress := 0 }

lemma isPrefixOf_append (l r : List Char) : l.isPrefixOf (l ++ r) = true :=
  List.isPrefixOf_iff_prefix.mpr (List.prefix_append l r)

lemma mismatched_head_not_isPrefixOf {a b : Char} (hab : a ≠ b)
    (as bs : List Char) : ¬ ((a :: as).isPrefixOf (b :: bs) = true) := by
  intro hpre
  exact hab (List.cons_prefix_cons.mp (List.isPrefixOf_iff_prefix.mp hpre)).1

/-- Claim C6: the classifier maps the declared content-type by exact
prefix/equality match into {image, audio, video, document, unknown}
(every string whose prefix is image/, video/ or audio/ gets the matching
tag, `application/pdf` classifies as document, `text/plain` as unknown),
and the unknown classification blocks all further processing: the active
file is left untouched and the rejection message is set, rather than an
exception being thrown or swallowed. -/
theorem getMediaType_classification :
    (∀ rest : List Char,
      getMediaType ("image/".toList ++ rest) = MediaType.image ∧
      getMediaType ("video/".toList ++ rest) = MediaType.video ∧
      getMediaType ("audio/".toList ++ rest) = MediaType.audio) ∧
    getMediaType "application/pdf".toList = MediaType.document ∧
    getMediaType "text/plain".toList = MediaType.unknown ∧
    (∀ (s : AppState) (name ctype : List Char),
      getMediaType ctype = MediaType.unknown →
      (processFile s name ctype).activeFile = s.activeFile ∧
      (processFile s name ctype).errorMsg = unsupportedMsg ∧
      (processFile s name ctype).status = s.status ∧
      (processFile s name ctype).progress = s.progress) := by
  refine ⟨?_, by decide, by decide, ?_⟩
  · intro rest
    refine ⟨?_, ?_, ?_⟩
    · unfold getMediaType
      rw [if_pos (isPrefixOf_append _ rest)]
    · unfold getMediaType
      rw [if_neg ?_, if_pos (isPrefixOf_append _ rest)]
      show ¬ (('i' :: "mage/".toList).isPrefixOf
        (('v' :: "ideo/".toList) ++ rest) = true)
      exact mismatched_head_not_isPrefixOf (by decide) _ _
    · unfold getMediaType
      rw [if_neg ?_, if_neg ?_, if_pos (isPrefixOf_append _ rest)]
      · show ¬ (('v' :: "ideo/".toList).isPrefixOf
          (('a' :: "udio/".toList) ++ rest) = true)
        exact mismatched_head_not_isPrefixOf (by decide) _ _
      · show ¬ (('i' :: "mage/".toList).isPrefixOf
          (('a' :: "udio/".toList) ++ rest) = true)
        exact mismatched_head_not_isPrefixOf (by decide) _ _
  · intro s name ctype hu
    unfold processFile
    rw [hu, if_pos rfl]
    exact ⟨rfl, rfl, rfl, rfl⟩

/-- Witness for C6: the unknown branch at the concrete declared type
`text/plain` leaves an idle state's active file empty and sets the
rejection message. -/
theorem getMediaType_classification_witness :
    (processFile ⟨none, [], ConversionStatus.idle, [], 0⟩
        "a.txt".toList "text/plain".toList).activeFile = none ∧
    (processFile ⟨none, [], ConversionStatus.idle, [], 0⟩
        "a.txt".toList "text/plain".toList).errorMsg = unsupportedMsg :=
  ⟨(getMediaType_classification.2.2.2
      ⟨none, [], ConversionStatus.idle, [], 0⟩
      "a.txt".toList "text/plain".toList (by decide)).1,
   (getMediaType_classification.2.2.2
      ⟨none, [], ConversionStatus.idle, [], 0⟩
      "a.txt".toList "text/plain".toList (by decide)).2.1⟩

/-- JavaScript `name.split('.')` over `List Char`: splits at every dot,
keeping empty segments, and yields `[[]]` for the empty string. -/
def splitOnDot : List Char → List (List Char)
  | [] => [[]]
  | c :: rest =>
    match splitOnDot rest with
    | [] => [[]]
    | seg :: segs =>
      if c = '.' then [] :: seg :: segs else (c :: seg) :: segs

/-- JavaScript `parts.join('.')`. -/
def joinDot : List (List Char) → List Char
  | [] => []
  | [seg] => seg
  | seg :: seg2 :: segs => seg ++ '.' :: joinDot (seg2 :: segs)

/-- The suggested filename of App.tsx's image-conversion branch:
`nameParts.slice(0, -1).join('.') + '.' + extension`. -/
def imageNewName (name ext : List Char) : List Char :=
  joinDot (splitOnDot name).dropLast ++ '.' :: ext

/-- The suggested filename of App.tsx's simulated-conversion branch:
`converted_` + `name.split('.')[0]` + `.` + extension. -/
def convertedName (name ext : List Char) : List Char :=
  "converted_".toList ++ (splitOnDot name).headD [] ++ '.' :: ext

/-- The suggested filename of App.tsx's AI-analysis branch:
`analysis_` + full original name + `.txt`. -/
def analysisName (name : List Char) : List Char :=
  "analysis_".toList ++ name ++ ".txt".toList

lemma splitOnDot_cons (c : Char) (rest : List Char) :
    splitOnDot (c :: rest) =
      match splitOnDot rest with
      | [] => [[]]
      | seg :: segs =>
        if c = '.' then [] :: seg :: segs else (c :: seg) :: segs := rfl

lemma splitOnDot_ne_nil (s : List Char) : splitOnDot s ≠ [] := by
  cases s with
  | nil => simp [splitOnDot]
  | cons c rest =>
    rw [splitOnDot_cons]
    cases splitOnDot rest with
    | nil => simp
    | cons seg segs =>
      by_cases hc : c = '.' <;> simp [hc]

lemma splitOnDot_no_dot (s : List Char) (h : '.' ∉ s) :
    splitOnDot s = [s] := by
  induction s with
  | nil => rfl
  | cons c rest ih =>
    have hc : c ≠ '.' := fun hc => h (hc ▸ List.mem_cons_self c rest)
    have hrest : '.' ∉ rest := fun hm => h (List.mem_cons_of_mem c hm)
    rw [splitOnDot_cons, ih hrest]
    simp [hc]

lemma splitOnDot_append_dot (xs ys : List Char) :
    splitOnDot (xs ++ '.' :: ys) = splitOnDot xs ++ splitOnDot ys := by
  induction xs with
  | nil =>
    rw [List.nil_append, splitOnDot_cons]
    cases hys : splitOnDot ys with
    | nil => exact absurd hys (splitOnDot_ne_nil ys)
    | cons seg segs => simp [splitOnDot]
  | cons c rest ih =>
    rw [List.cons_append, splitOnDot_cons, ih, splitOnDot_cons]
    cases hrest : splitOnDot rest with
    | nil => exact absurd hrest (splitOnDot_ne_nil rest)
    | cons seg segs =>
      rw [List.cons_append]
      by_cases hc : c = '.' <;> simp [hc]

lemma joinDot_splitOnDot (s : List Char) : joinDot (splitOnDot s) = s := by
  induction s with
  | nil => rfl
  | cons c rest ih =>
    cases hrest : splitOnDot rest with
    | nil => exact absurd hrest (splitOnDot_ne_nil rest)
    | cons seg segs =>
      have hsplit : splitOnDot (c :: rest) =
          if c = '.' then [] :: seg :: segs else (c :: seg) :: segs := by
        rw [splitOnDot_cons, hrest]
      rw [hrest] at ih
      rw [hsplit]
      by_cases hc : c = '.'
      · subst hc
        rw [if_pos rfl]
        show [] ++ '.' :: joinDot (seg :: segs) = '.' :: rest
        rw [ih]
        rfl
      · rw [if_neg hc]
        cases segs with
        | nil =>
          show c :: seg = c :: rest
          rw [show joinDot [seg] = seg from rfl] at ih
          rw [ih]
        | cons seg2 segs2 =>
          show (c :: seg) ++ '.' :: joinDot (seg2 :: segs2) = c :: rest
          rw [List.cons_append]
          exact congrArg (List.cons c) ih

/-- Claim C7 counterexample: the claim fails as stated. On the
image-conversion path a dotless input name `photo` yields `.jpg` — the
basename is lost rather than preserved — and on the simulated-conversion
path `clip.mp4` yields `converted_clip.avi`, not `clip.avi`. -/
theorem newName_not_always_basename_preserving :
    imageNewName "photo".toList "jpg".toList = ".jpg".toList ∧
    imageNewName "photo".toList "jpg".toList ≠ "photo.jpg".toList ∧
    convertedName "clip.mp4".toList "avi".toList =
      "converted_clip.avi".toList ∧
    convertedName "clip.mp4".toList "avi".toList ≠ "clip.avi".toList := by
  refine ⟨by decide, by decide, by decide, by decide⟩

/-- Claim C7 as amended: on the image-conversion path, for every input
filename that contains at least one dot — written `base ++ "." ++ last`
with a dot-free final segment `last` — the suggested output filename
preserves the basename and replaces only the final dot-segment with the
new extension. (Dotless filenames lose their basename, and the
AI/simulated paths prefix `analysis_`/`converted_` instead.) -/
theorem imageNewName_replaces_final_segment
    (base last ext : List Char) (h : '.' ∉ last) :
    imageNewName (base ++ '.' :: last) ext = base ++ '.' :: ext := by
  unfold imageNewName
  rw [splitOnDot_append_dot, splitOnDot_no_dot last h,
    List.dropLast_concat, joinDot_splitOnDot]

/-- Witness for amended C7: `photo.png` converted with extension `jpg`
is suggested as `photo.jpg`. -/
theorem imageNewName_replaces_final_segment_witness :
    imageNewName ("photo".toList ++ '.' :: "png".toList) "jpg".toList =
      "photo".toList ++ '.' :: "jpg".toList :=
  imageNewName_replaces_final_segment "photo".toList "png".toList
    "jpg".toList (by decide)

/-- Whether the `Image` element fires `onload` or `onerror` for the
object URL it was given. -/
inductive LoadOutcome where
  | loaded
  | failed
deriving DecidableEq

/-- The terminal errors a conversion call can reject with: the decode
failure delivered by `img.onerror`, the missing 2D canvas context
(`"Could not get canvas context"`), and the `canvas.toBlob` backend
returning null (`"Conversion failed"`). -/
inductive ConvError where
  | decodeError
  | contextError
  | encodeError
deriving DecidableEq

/-- Observable outcome of one `convertImage` call: how the promise
settled, whether `URL.revokeObjectURL` ran on the temporary object URL,
and how many times the encoder (`canvas.toBlob`) was invoked. -/
structure ImageCallTrace where
  result : Except ConvError EncodedImage
  urlRevoked : Bool
  encodeCalls : Nat

/-- Control flow of `convertImage` in mediaUtils.ts, per exit path:
`onerror` rejects and revokes the URL; a missing context rejects and
returns without revoking; otherwise `toBlob` runs once and its callback
resolves (blob) or rejects (null), then revokes the URL. -/
def convertImageCall (img : SourceImage) (format : ImageFormat)
    (quality : ℚ) (load : LoadOutcome) (ctxAvailable : Bool)
    (encodeOk : Bool) : ImageCallTrace :=
  match load with
  | LoadOutcome.failed => ⟨Except.error ConvError.decodeError, true, 0⟩
  | LoadOutcome.loaded =>
    if ctxAvailable then
      if encodeOk then
        ⟨Except.ok (convertImage img format quality), true, 1⟩
      else ⟨Except.error ConvError.encodeError, true, 1⟩
    else ⟨Except.error ConvError.contextError, false, 0⟩

/-- Observable outcome of one `convertImageToPDF` call. -/
structure PdfCallTrace where
  result : Except ConvError Placement
  urlRevoked : Bool
  documentWrites : Nat

/-- Control flow of `convertImageToPDF` in mediaUtils.ts: `onload`
builds the single-page document with the computed placement, resolves,
and revokes the URL; `img.onerror = reject` rejects without revoking. -/
def convertImageToPDFCall (w h : Nat) (load : LoadOutcome) : PdfCallTrace :=
  match load with
  | LoadOutcome.failed => ⟨Except.error ConvError.decodeError, false, 0⟩
  | LoadOutcome.loaded => ⟨Except.ok (paginatePlacement w h), true, 1⟩

/-- A placeholder 1×1 opaque-white raster used for concrete runs. -/
def unitImage : SourceImage := ⟨1, 1, fun _ _ => whitePixel⟩

/-- Claim C8 counterexample: the claim fails as stated — two exit paths
do not release the temporary object URL: `convertImageToPDF`'s decode
failure path (`img.onerror = reject` never revokes), and
`convertImage`'s missing-canvas-context path (it rejects and returns
before the revoke). -/
theorem objectURL_not_released_on_every_path :
    (convertImageToPDFCall 1 1 LoadOutcome.failed).urlRevoked = false ∧
    (convertImageCall unitImage ImageFormat.png defaultQuality
      LoadOutcome.loaded false true).urlRevoked = false :=
  ⟨rfl, rfl⟩

/-- Claim C8 as amended: `convertImage` releases its object URL on the
decode-failure path and on both encoder outcomes whenever a canvas
context is obtained, but not on the missing-context path;
`convertImageToPDF` releases it only on the success path, not on decode
failure. -/
theorem objectURL_release_per_path (img : SourceImage)
    (f : ImageFormat) (q : ℚ) (w h : Nat) :
    (convertImageCall img f q LoadOutcome.failed true true).urlRevoked = true ∧
    (∀ c e, (convertImageCall img f q LoadOutcome.failed c e).urlRevoked = true) ∧
    (∀ e, (convertImageCall img f q LoadOutcome.loaded true e).urlRevoked = true) ∧
    (∀ e, (convertImageCall img f q LoadOutcome.loaded false e).urlRevoked = false) ∧
    (convertImageToPDFCall w h LoadOutcome.loaded).urlRevoked = true ∧
    (convertImageToPDFCall w h LoadOutcome.failed).urlRevoked = false := by
  refine ⟨rfl, fun c e => rfl, fun e => ?_, fun e => rfl, rfl, rfl⟩
  cases e <;> rfl

/-- Claim C9: neither function returns partial output and neither
retries. Every `convertImage` call settles exactly once — with the
complete encoded buffer precisely when the image loaded, a context was
obtained and the encoder produced a blob, and with one terminal error
(decode, context or encode) otherwise — and invokes the encoder at most
once; every `convertImageToPDF` call resolves with the complete
single-page document on load success and rejects with the decode error
on load failure, writing the document at most once. -/
theorem conversion_no_partial_output (img : SourceImage)
    (f : ImageFormat) (q : ℚ) (w h : Nat) :
    (∀ load c e,
      ((convertImageCall img f q load c e).result =
          Except.ok (convertImage img f q) ↔
        (load = LoadOutcome.loaded ∧ c = true ∧ e = true)) ∧
      (convertImageCall img f q load c e).encodeCalls ≤ 1 ∧
      ((convertImageCall img f q load c e).result =
          Except.ok (convertImage img f q) ∨
        ∃ err, (convertImageCall img f q load c e).result =
          Except.error err)) ∧
    (∀ load,
      (convertImageToPDFCall w h load).result =
          (match load with
           | LoadOutcome.loaded => Except.ok (paginatePlacement w h)
           | LoadOutcome.failed => Except.error ConvError.decodeError) ∧
      (convertImageToPDFCall w h load).documentWrites ≤ 1) := by
  constructor
  · intro load c e
    cases load <;> cases c <;> cases e <;>
      simp [convertImageCall]
  · intro load
    cases load <;> exact ⟨rfl, by simp [convertImageToPDFCall]⟩

/-- One tick of `simulateProgress`'s interval callback:
`prev >= 95 ? 95 : prev + Math.random() * 15`, the random increment
`r = Math.random() * 15` lying in [0, 15). -/
def progressStep (prev r : ℚ) : ℚ :=
  if 95 ≤ prev then 95 else prev + r

/-- The progress value after a sequence of interval ticks with the given
random increments, starting from the initial `setProgress(0)` value. -/
def progressRun : List ℚ → ℚ → ℚ
  | [], p => p
  | r :: rs, p => progressRun rs (progressStep p r)

/-- The interval period of `simulateProgress` in milliseconds. -/
def intervalMs : Nat := 300

/-- The timeout of `simulateProgress` in milliseconds, at which the
interval is cleared and the progress snaps to 100. -/
def timeoutMs : Nat := 2000

/-- The number of interval ticks that can fire before the timeout clears
the interval: one per full 300 ms within 2000 ms, i.e. 6. -/
def maxTicks : Nat := timeoutMs / intervalMs

/-- The value `setProgress(100)` installs when the timeout fires. -/
def snappedProgress : ℚ := 100

lemma progressRun_le (rs : List ℚ) :
    ∀ (n : Nat) (p : ℚ), (∀ r ∈ rs, 0 ≤ r ∧ r ≤ 15) →
    0 ≤ p → p ≤ 15 * n → 15 * ((n : ℚ) + rs.length) ≤ 95 →
    progressRun rs p ≤ 15 * ((n : ℚ) + rs.length) := by
  induction rs with
  | nil =>
    intro n p _ _ hp hcap
    simpa using hp
  | cons r rs ih =>
    intro n p hbounds hp0 hpn hcap
    have hr := hbounds r (List.mem_cons_self r rs)
    have hlen : ((rs.length : ℚ) + 1) = ((r :: rs).length : ℚ) := by
      push_cast [List.length_cons]
      ring
    have hstep : progressStep p r = p + r := by
      unfold progressStep
      rw [if_neg]
      intro hge
      have h95 : (95 : ℚ) ≤ 15 * n := le_trans hge hpn
      have hmono : 15 * (n : ℚ) ≤ 15 * ((n : ℚ) + (r :: rs).length) := by
        have : (0 : ℚ) ≤ ((r :: rs).length : ℚ) := by positivity
        nlinarith
      have : (95 : ℚ) ≤ 95 := le_refl _
      have hlt : (95 : ℚ) < 95 := by
        calc (95 : ℚ) ≤ 15 * n := h95
          _ < 15 * ((n : ℚ) + (r :: rs).length) := by
              have : (0 : ℚ) < ((r :: rs).length : ℚ) := by
                simp [List.length_cons]
                positivity
              nlinarith
          _ ≤ 95 := hcap
      exact absurd hlt (lt_irrefl _)
    show progressRun rs (progressStep p r) ≤ _
    rw [hstep]
    have hrec := ih (n + 1) (p + r)
      (fun x hx => hbounds x (List.mem_cons_of_mem r hx))
      (by linarith [hr.1])
      (by push_cast; linarith [hr.2])
      (by push_cast at hcap ⊢; linarith)
    calc progressRun rs (p + r) ≤ 15 * (((n + 1 : Nat) : ℚ) + rs.length) := hrec
      _ = 15 * ((n : ℚ) + (r :: rs).length) := by
          push_cast [List.length_cons]
          ring

/-- Claim C10: during the simulated-progress timer the progress value
never exceeds 100 — at most `maxTicks = 6` interval ticks fire before
the 2000 ms timeout clears the 300 ms interval, each tick adds a random
increment below 15 (after every prefix of ticks the value stays at most
90, in particular at most 100) — and at completion the value snaps to
exactly 100. -/
theorem simulateProgress_capped (rs : List ℚ)
    (hlen : rs.length ≤ maxTicks) (hbounds : ∀ r ∈ rs, 0 ≤ r ∧ r < 15) :
    (∀ k : Nat, progressRun (rs.take k) 0 ≤ 100) ∧
    snappedProgress = 100 := by
  refine ⟨fun k => ?_, rfl⟩
  have htake : (rs.take k).length ≤ maxTicks :=
    le_trans (by simpa using List.length_take_le k rs) hlen
  have hmax : maxTicks = 6 := rfl
  have hb : ∀ r ∈ rs.take k, 0 ≤ r ∧ r ≤ 15 := by
    intro r hr
    have := hbounds r (List.mem_of_mem_take hr)
    exact ⟨this.1, this.2.le⟩
  have hlenq : ((rs.take k).length : ℚ) ≤ 6 := by
    exact_mod_cast hmax ▸ htake
  have hrun := progressRun_le (rs.take k) 0 0 hb (le_refl 0) (by norm_num)
    (by push_cast; linarith)
  calc progressRun (rs.take k) 0 ≤ 15 * ((0 : ℚ) + (rs.take k).length) := hrun
    _ ≤ 15 * 6 := by nlinarith
    _ ≤ 100 := by norm_num

/-- Witness for C10: a maximal run of six ticks of 14 stays at 84 ≤ 100,
and the completion value is exactly 100. -/
theorem simulateProgress_capped_witness :
    progressRun (List.take 6 [14, 14, 14, 14, 14, 14]) 0 ≤ 100 ∧
    snappedProgress = 100 :=
  ⟨(simulateProgress_capped [14, 14, 14, 14, 14, 14]
      (by decide) (by norm_num)).1 6,
   (simulateProgress_capped [14, 14, 14, 14, 14, 14]
      (by decide) (by norm_num)).2⟩
